import Mathlib

/-!
# Verification of the sphinx-notebook execution cache and glue store

A shallow embedding of `src/myst_nb/cache.py` and
`src/myst_nb/nb_glue/domain.py`, together with theorems settling the
spec claims about them.

Python dictionaries are modelled as association lists with dict
semantics (at most one live binding per key; lookup finds the first
binding, insertion replaces the first binding in place, erasure removes
all bindings of the key, matching `dict.pop` on duplicate-free lists).
-/

set_option maxRecDepth 4000

namespace SphinxNb

/-! ## Python dictionaries as association lists -/

/-- A Python `dict`, modelled as an association list. -/
abbrev Dict (K V : Type) : Type := List (K × V)

namespace Dict

variable {K V : Type} [DecidableEq K]

/-- The empty dict `{}`. -/
def empty : Dict K V := []

/-- `d.get(k)` / `d[k]` lookup: first binding of the key, if any. -/
def dget : Dict K V → K → Option V
  | [], _ => none
  | p :: rest, k => if p.1 = k then some p.2 else dget rest k

/-- `d[k] = v`: replace the first binding of `k` in place, else append. -/
def dinsert : Dict K V → K → V → Dict K V
  | [], k, v => [(k, v)]
  | p :: rest, k, v => if p.1 = k then (k, v) :: rest else p :: dinsert rest k v

/-- `d.pop(k, None)`: remove the bindings of `k`. -/
def derase (m : Dict K V) (k : K) : Dict K V :=
  m.filter (fun p => p.1 ≠ k)

/-- `d.update(other)`: upsert every binding of `other`, in order. -/
def dupdate (m other : Dict K V) : Dict K V :=
  other.foldl (fun acc p => dinsert acc p.1 p.2) m

/-- Build a dict from a stream of pairs (as a Python dict comprehension
does): a later pair with the same key wins. -/
def ofPairs (l : List (K × V)) : Dict K V :=
  l.foldl (fun acc p => dinsert acc p.1 p.2) empty

@[simp] theorem dget_nil (k : K) : dget ([] : Dict K V) k = none := rfl

@[simp] theorem dget_cons (p : K × V) (rest : Dict K V) (k : K) :
    dget (p :: rest) k = if p.1 = k then some p.2 else dget rest k := rfl

theorem dget_dinsert_self (m : Dict K V) (k : K) (v : V) :
    dget (dinsert m k v) k = some v := by
  induction m with
  | nil => simp [dinsert]
  | cons p rest ih =>
    by_cases h : p.1 = k
    · simp [dinsert, h]
    · simp [dinsert, h, ih]

theorem dget_dinsert_ne (m : Dict K V) (k k' : K) (v : V) (h : k' ≠ k) :
    dget (dinsert m k v) k' = dget m k' := by
  have hk : ¬ k = k' := fun hh => h hh.symm
  induction m with
  | nil => simp [dinsert, dget, hk]
  | cons p rest ih =>
    by_cases hp : p.1 = k
    · rw [dinsert, if_pos hp, dget_cons, dget_cons,
        if_neg hk, if_neg (fun hh => hk (hp.symm.trans hh))]
    · rw [dinsert, if_neg hp, dget_cons, dget_cons]
      by_cases hp' : p.1 = k'
      · simp [hp']
      · simp [hp', ih]

@[simp] theorem derase_nil (k : K) : derase ([] : Dict K V) k = [] := rfl

theorem derase_cons (p : K × V) (rest : Dict K V) (k : K) :
    derase (p :: rest) k =
      if p.1 = k then derase rest k else p :: derase rest k := by
  by_cases hp : p.1 = k <;> simp [derase, List.filter_cons, hp]

theorem dget_derase_self (m : Dict K V) (k : K) :
    dget (derase m k) k = none := by
  induction m with
  | nil => rfl
  | cons p rest ih =>
    rw [derase_cons]
    by_cases h : p.1 = k
    · rw [if_pos h]; exact ih
    · rw [if_neg h, dget_cons, if_neg h]; exact ih

theorem dget_derase_ne (m : Dict K V) (k k' : K) (h : k' ≠ k) :
    dget (derase m k) k' = dget m k' := by
  induction m with
  | nil => rfl
  | cons p rest ih =>
    rw [derase_cons]
    by_cases hp : p.1 = k
    · rw [if_pos hp, dget_cons, if_neg (fun hh => h (hh.symm.trans hp)), ih]
    · rw [if_neg hp, dget_cons, dget_cons]
      by_cases hp' : p.1 = k'
      · simp [hp']
      · simp [hp', ih]

theorem derase_of_dget_none (m : Dict K V) (k : K) (h : dget m k = none) :
    derase m k = m := by
  induction m with
  | nil => rfl
  | cons p rest ih =>
    by_cases hp : p.1 = k
    · simp [dget, hp] at h
    · simp only [dget_cons, if_neg hp] at h
      rw [derase_cons, if_neg hp, ih h]

/-- Erasing a list of keys with a fold, as `clear_doc` does. -/
def eraseList (m : Dict K V) (ks : List K) : Dict K V :=
  ks.foldl (fun c k => derase c k) m

theorem dget_eraseList (ks : List K) (m : Dict K V) (k : K) :
    dget (eraseList m ks) k = if k ∈ ks then none else dget m k := by
  induction ks generalizing m with
  | nil => simp [eraseList]
  | cons a rest ih =>
    show dget (eraseList (derase m a) rest) k = _
    rw [ih]
    by_cases hmem : k ∈ rest
    · simp [hmem]
    · by_cases hk : k = a
      · subst hk
        simp [hmem, dget_derase_self]
      · simp [hmem, hk, dget_derase_ne m a k hk]

end Dict

/-! ## The glue store (`myst_nb/nb_glue/domain.py`) -/

/-- Modelled from the spec: `GLUE_PREFIX` lives in `myst_nb/nb_glue/__init__.py`,
which is not under `src/`; the spec calls it "an internal reservation
prefix" on mimebundle keys that `lookup` can strip before exposing them.
Its exact text is immaterial to every claim below. -/
def GLUE_PREFIX : String := "application/papermill.record/"

/-- A glued artifact: a mimebundle (`data`, a mapping of MIME type to raw
content) plus whatever other members the output dict carries (`extra`,
opaque here). `get` rewrites only the `data` member. -/
structure Artifact where
  data : Dict String String
  extra : String
deriving DecidableEq

/-- The domain data of `NbGlueDomain`: the key → artifact `cache` and the
document → keys `docmap` (`initial_data = {"cache": {}, "docmap": {}}`). -/
structure GlueState where
  cache : Dict String Artifact
  docmap : Dict String (List String)
deriving DecidableEq

/-- The Python exceptions the embedded code can raise. -/
inductive PyErr where
  | keyError
  | typeError
deriving DecidableEq

/-- Python `str.replace` worker: scan left to right, replacing each
(non-overlapping) occurrence of `pat`; structural recursion on a fuel
that the caller seeds with the length of the scanned list, enough because
every step consumes at least one character. -/
def pyReplaceFuel (pat rep : List Char) : Nat → List Char → List Char
  | 0, l => l
  | _ + 1, [] => []
  | n + 1, a :: t =>
    if pat ≠ [] ∧ pat.isPrefixOf (a :: t) then
      rep ++ pyReplaceFuel pat rep n ((a :: t).drop pat.length)
    else a :: pyReplaceFuel pat rep n t

/-- Python `s.replace(pat, rep)` for a nonempty `pat` (the only case the
source exercises: the pattern is always `GLUE_PREFIX`). -/
def pyReplace (s pat rep : String) : String :=
  (pyReplaceFuel pat.toList rep.toList s.toList.length s.toList).asString

/-- `{key.replace(GLUE_PREFIX, ""): val for key, val in output["data"].items()}`. -/
def stripData (d : Dict String String) : Dict String String :=
  Dict.ofPairs (d.map (fun p => (pyReplace p.1 GLUE_PREFIX "", p.2)))

/-- An artifact with its `data` member prefix-stripped. -/
def stripArtifact (a : Artifact) : Artifact :=
  { a with data := stripData a.data }

/-- `NbGlueDomain.get`, shallow-embedded. Python fetches
`output = self.cache.get(key)` (an alias into the cache), deep-copies it
when `view` is true, and when `replace` is true assigns
`output["data"] = {stripped}` — mutating the cached object itself when
`view` is false, which is why the resulting store state is returned
alongside the value. Subscripting the `None` returned for a missing key
raises `TypeError`. -/
def glue_get (s : GlueState) (key : String) (view : Bool) (replace : Bool) :
    Except PyErr (Option Artifact × GlueState) :=
  match Dict.dget s.cache key with
  | none =>
      if replace then .error .typeError else .ok (none, s)
  | some a =>
      if replace then
        if view then .ok (some (stripArtifact a), s)
        else .ok (some (stripArtifact a),
                  { s with cache := Dict.dinsert s.cache key (stripArtifact a) })
      else .ok (some a, s)

/-- The JSON object `NbGlueDomain.write_cache` serializes (as an
association list in docmap order):
`{d: {k: self.cache[k] for k in vs if k in self.cache}
  for d, vs in self.docmap.items() if vs}`. -/
def snapshot (s : GlueState) : List (String × List (String × Artifact)) :=
  (s.docmap.filter (fun p => !p.2.isEmpty)).map
    (fun p => (p.1, p.2.filterMap (fun k => (Dict.dget s.cache k).map (fun v => (k, v)))))

/-- Python `set(...)` of a dict's keys, as a duplicate-free list. -/
def pySet (l : List String) : List String := l.eraseDups

/-- `NbGlueDomain.add_notebook`, parameterized by the result of
`find_all_keys` (defined in `myst_nb/nb_glue/utils.py`, which is not under
`src/`): the dict of key/artifact pairs extracted from the notebook. The
method body replaces the document entry in the docmap with
`set(new_keys)` and upserts every extracted pair into the cache. -/
def add_notebook (s : GlueState) (docname : String) (new_keys : Dict String Artifact) :
    GlueState :=
  { docmap := Dict.dinsert s.docmap docname (pySet (new_keys.map (·.1)))
    cache := Dict.dupdate s.cache new_keys }

/-- The key list `self.docmap.get(docname, [])` that `clear_doc` iterates. -/
def ownedKeys (s : GlueState) (docname : String) : List String :=
  (Dict.dget s.docmap docname).getD []

/-- `NbGlueDomain.clear_doc`: pop every owned key from the cache, then pop
the document from the docmap (both pops defaulted, so never raising). -/
def clear_doc (s : GlueState) (docname : String) : GlueState :=
  { cache := Dict.eraseList s.cache (ownedKeys s docname)
    docmap := Dict.derase s.docmap docname }

/-- The `NotImplementedError` message `merge_domaindata` raises (Python
interpolates `self.__class__` where `NbGlueDomain` stands here). -/
def mergeDomaindataMsg : String :=
  "merge_domaindata must be implemented in NbGlueDomain to be able to do parallel builds!"

/-- `NbGlueDomain.merge_domaindata`: raises `NotImplementedError` before
touching any state, whatever its arguments are. -/
def merge_domaindata (_s : GlueState) (_docnames : List String) (_otherdata : GlueState) :
    Except String GlueState :=
  .error mergeDomaindataMsg

/-! ## Python string helpers used by `myst_nb/cache.py` -/

/-- Index of the last occurrence of `c` in `l`, if any. -/
def lastIdx : List Char → Char → Option Nat
  | [], _ => none
  | a :: l, c =>
    match lastIdx l c with
    | some i => some (i + 1)
    | none => if a = c then some 0 else none

/-- Python `str.rfind` for a single character: index of the last
occurrence, or `-1`. -/
def pyRfind (s : String) (c : Char) : Int :=
  match lastIdx s.toList c with
  | some i => (i : Int)
  | none => -1

/-- Python slice `l[a:b]`: negative indices wrap around from the end,
and both bounds clamp into `[0, len]`. -/
def pySliceL (l : List Char) (a b : Int) : List Char :=
  let n : Int := l.length
  let st : Int := if a < 0 then max (n + a) 0 else min a n
  let sp : Int := if b < 0 then max (n + b) 0 else min b n
  (l.drop st.toNat).take (sp.toNat - st.toNat)

/-- Python slice `s[a:]`. -/
def pySliceFrom (s : String) (a : Int) : String :=
  (pySliceL s.toList a s.toList.length).asString

/-- `_relative_file_path`, with the process working directory
(`os.getcwd()`) passed explicitly: `file_path[currentdir.rfind("/") + 1:]`. -/
def relative_file_path (cwd file_path : String) : String :=
  let dir_index := pyRfind cwd '/'
  pySliceFrom file_path (dir_index + 1)

/-- The slice `r[r.rfind("/") + 1 : r.rfind(".")]` computing the report
log file name inside `add_notebook_outputs`. -/
def log_file_name (r : String) : String :=
  (pySliceL r.toList (pyRfind r '/' + 1) (pyRfind r '.')).asString

/-! ## The execution cache (`myst_nb/cache.py`) -/

/-- A notebook cell: its `cell_type` and its (opaque) output objects. -/
structure Cell where
  cell_type : String
  outputs : List String
deriving DecidableEq

/-- A parsed notebook (`nbformat.read`): an ordered list of cells. -/
structure Notebook where
  cells : List Cell
deriving DecidableEq

/-- An `NbCacheRecord`: numeric identity `pk`, the uri it was recorded
for, and its creation timestamp (a `Nat` stands for the datetime). -/
structure CacheRecordE where
  pk : Nat
  uri : String
  created : Nat
deriving DecidableEq

/-- A staged-execution record: `pk`, uri, and the optional traceback left
by a failed run. -/
structure StagedRecordE where
  pk : Nat
  uri : String
  traceback : Option String
deriving DecidableEq

/-- Modelled from the spec: the jupyter-cache database state behind the
opaque execution engine (`get_cache(path_cache)`), holding the staged and
cache records the orchestrator reads; `nextPk` feeds fresh pks (and
doubles as the logical creation timestamp). -/
structure CacheState where
  staged : List StagedRecordE
  records : List CacheRecordE
  nextPk : Nat
deriving DecidableEq

/-- Modelled from the spec: `recordsForPath(path) -> list<CacheRecord>`
(`NbCacheRecord.records_from_uri`): every cache record matching the path,
the empty list when none do. -/
def records_from_uri (uri : String) (db : CacheState) : List CacheRecordE :=
  db.records.filter (fun r => r.uri = uri)

/-- Modelled from the spec: `cache_base.get_cache_record(pk)`, raising
`KeyError` for an unknown pk (the error the source catches). -/
def get_cache_record (pk : Nat) (db : CacheState) : Except PyErr CacheRecordE :=
  match db.records.find? (fun r => r.pk = pk) with
  | some r => Except.ok r
  | none => Except.error PyErr.keyError

/-- Modelled from the spec: `getStagedRecord(path) -> StagedRecord | not-found`
(`cache_base.get_staged_record`); the Python engine raises `KeyError` for
not-found, which `add_notebook_outputs` catches. -/
def get_staged_record (uri : String) (db : CacheState) : Except PyErr StagedRecordE :=
  match db.staged.find? (fun r => r.uri = uri) with
  | some r => Except.ok r
  | none => Except.error PyErr.keyError

/-- The record-selection loop of `add_notebook_outputs`:
`latest = None; for item in cache_list: if latest is None or
(latest > item.created): latest = item.created; latest_pk = item.pk`,
returning the final `(latest, latest_pk)` pair. -/
def select_latest (l : List CacheRecordE) : Option (Nat × Nat) :=
  l.foldl
    (fun acc item =>
      match acc with
      | none => some (item.created, item.pk)
      | some st =>
        if st.1 > item.created then some (item.created, item.pk) else some st)
    none

/-- The `latest_pk` the selection loop leaves behind. -/
def select_pk (l : List CacheRecordE) : Option Nat := (select_latest l).map (·.2)

/-- Modelled from the spec: `stage(path) -> StagedRecord`
(`cache_base.stage_notebook_file`): create a staged record for the path
under a fresh pk and return it. -/
def stage_notebook_file (st : CacheState) (path : String) : StagedRecordE × CacheState :=
  let r : StagedRecordE := { pk := st.nextPk, uri := path, traceback := none }
  (r, { st with staged := st.staged ++ [r], nextPk := st.nextPk + 1 })

/-- Modelled from the spec: `cacheDirect(path, overwrite)`
(`cache_base.cache_notebook_file(source_path, overwrite=True)`): record
the notebook as cached, removing any prior record for its identity when
`overwrite` is set. -/
def cache_notebook_file (st : CacheState) (path : String) (overwrite : Bool) : CacheState :=
  let kept := if overwrite then st.records.filter (fun r => r.uri ≠ path) else st.records
  { st with
    records := kept ++ [{ pk := st.nextPk, uri := path, created := st.nextPk }]
    nextPk := st.nextPk + 1 }

/-- One document of `nb_list` as the loop sees it: its docname, its
`doc2path` source path and the notebook read from it. -/
structure DocInput where
  name : String
  source_path : String
  ntbk : Notebook
deriving DecidableEq

/-- `True in [x in nb for x in execution_excludepatterns]`
(Python `in` on strings is the substring test). -/
def excludedDoc (excludepatterns : List String) (nb : String) : Bool :=
  excludepatterns.any (fun x => decide (x.toList <:+: nb.toList))

/-- `all(len(cell.outputs) != 0 for cell in ntbk.cells
if cell["cell_type"] == "code")`. -/
def has_outputs_of (ntbk : Notebook) : Bool :=
  (ntbk.cells.filter (fun c => c.cell_type = "code")).all
    (fun c => c.outputs.length ≠ 0)

/-- The body of the `for nb in nb_list` loop of `stage_and_execute`,
threading the `pk_list` accumulator (Python `None` until the first
staging) and the engine state. -/
def process_doc (excludepatterns : List String) (do_run : Bool)
    (acc : Option (List Nat) × CacheState) (d : DocInput) :
    Option (List Nat) × CacheState :=
  if excludedDoc excludepatterns d.name then acc
  else if do_run || !(has_outputs_of d.ntbk) then
    let (sr, st') := stage_notebook_file acc.2 d.source_path
    (some ((acc.1.getD []) ++ [sr.pk]), st')
  else if has_outputs_of d.ntbk then
    (acc.1, cache_notebook_file acc.2 d.source_path true)
  else acc

/-- Python `pk_list or None`: both `None` and the empty list collapse to
`None`. -/
def pyOrNone : Option (List Nat) → Option (List Nat)
  | none => none
  | some [] => none
  | some l => some l

/-- Modelled from the spec: `runBatch(identifiers: set<id> | null)`
(`executor.run_and_cache(filter_pks=...)`): run the staged notebooks whose
pk is listed, or every staged notebook when given `None`; returns the pks
it executed. -/
def run_and_cache (st : CacheState) (filter_pks : Option (List Nat)) : List Nat :=
  match filter_pks with
  | none => st.staged.map (·.pk)
  | some l => (st.staged.map (·.pk)).filter (fun pk => pk ∈ l)

/-- `execute_staged_nb` with the executor loading successfully: one
engine call with `filter_pks=pk_list or None`. -/
def execute_staged_nb (st : CacheState) (pk_list : Option (List Nat)) : List Nat :=
  run_and_cache st (pyOrNone pk_list)

/-- Everything a `stage_and_execute` call leaves behind. -/
structure StageExecOut where
  pk_list : Option (List Nat)
  state : CacheState
  executed : List Nat
deriving DecidableEq

/-- `stage_and_execute` with caching configured: the staging loop over
the notebook list, then the single `execute_staged_nb` call. -/
def stage_and_execute (excludepatterns : List String) (do_run : Bool)
    (docs : List DocInput) (st : CacheState) : StageExecOut :=
  let acc := docs.foldl (process_doc excludepatterns do_run) (none, st)
  { pk_list := acc.1, state := acc.2, executed := execute_staged_nb acc.2 acc.1 }

/-- The outcome of `add_notebook_outputs`: the (possibly merged)
notebook, the report files written as (path, contents) pairs, and the
info/error log messages emitted. -/
structure MergeOut where
  ntbk : Notebook
  reports : List (String × String)
  infos : List String
  errors : List String
deriving DecidableEq

/-- The `logger.error` message of the `except KeyError` arm (the Python
text "Couldn0x27t find cache key …" carries an apostrophe, spelled out
here without it; its exact text matters to no claim). -/
def cacheKeyErrMsg (r_file_path : String) : String :=
  "Could not find cache key for notebook file " ++ r_file_path ++
    ". Outputs will not be inserted"

/-- The `try` block looking the current cache record up: list the records
for the uri and, when there are any, fetch the one the selection loop
picked (`KeyError` from the fetch propagates to the surrounding
`except`). -/
def lookup_cache_record (file_path : String) (db : CacheState) :
    Except PyErr (Option CacheRecordE) :=
  let cache_list := records_from_uri file_path db
  if cache_list.length ≠ 0 then
    match select_pk cache_list with
    | some latest_pk => (get_cache_record latest_pk db).map some
    | none => Except.ok none
  else Except.ok none

/-- `add_notebook_outputs`, shallow-embedded. The engine database, the
working directory, and the engine's content-matching merge
(`cache_base.merge_match_into_notebook`, opaque per the spec) are passed
explicitly; `path_cache` is the Python truthiness of the cache setting.
Exceptions the source catches (`except KeyError`) are caught here;
anything uncaught would surface as an `Except.error`. -/
def add_notebook_outputs (cwd : String) (db : CacheState)
    (merge_match_into_notebook : Notebook → Notebook)
    (file_path : String) (ntbk : Notebook) (path_cache : Bool) (dest_path : String) :
    Except PyErr MergeOut :=
  let reports_dir := dest_path ++ "/reports"
  if path_cache then
    let r_file_path := relative_file_path cwd file_path
    match
      (match lookup_cache_record file_path db with
       | Except.ok r => Except.ok (r, ([] : List String))
       | Except.error PyErr.keyError => Except.ok (none, [cacheKeyErrMsg r_file_path])
       | Except.error e => Except.error e) with
    | Except.error e => Except.error e
    | Except.ok (cache_record, errs) =>
      match cache_record with
      | some _ =>
        Except.ok { ntbk := merge_match_into_notebook ntbk, reports := [],
                    infos := [], errors := errs }
      | none =>
        let stage_record : Option StagedRecordE :=
          match get_staged_record r_file_path db with
          | Except.ok r => some r
          | Except.error _ => none
        match stage_record with
        | some sr =>
          if sr.traceback.getD "" ≠ "" then
            let file_name := log_file_name r_file_path
            let full_path := reports_dir ++ "/" ++ file_name ++ ".log"
            Except.ok { ntbk := ntbk,
                        reports := [(full_path, sr.traceback.getD "")],
                        infos := ["Execution traceback for " ++ file_name ++
                                  " is saved in " ++ full_path],
                        errors := errs }
          else Except.ok { ntbk := ntbk, reports := [], infos := [], errors := errs }
        | none => Except.ok { ntbk := ntbk, reports := [], infos := [], errors := errs }
  else Except.ok { ntbk := ntbk, reports := [], infos := [], errors := [] }

/-! ## Claims -/

/-- C5: for every store state, every docnames list and every other-store
data, `merge_domaindata` fails with the explicit unsupported-operation
(`NotImplementedError`) message, and never returns a (modified or
unmodified) store state: no silent no-op is possible. -/
theorem merge_domaindata_always_fails (s : GlueState) (docnames : List String)
    (otherdata : GlueState) :
    merge_domaindata s docnames otherdata = Except.error mergeDomaindataMsg ∧
    ∀ s' : GlueState, merge_domaindata s docnames otherdata ≠ Except.ok s' := by
  refine ⟨rfl, fun s' h => ?_⟩
  simp [merge_domaindata] at h

/-- C8: `add_notebook` is idempotent in ownership: after two calls for
the same document, the docmap entry of the document is exactly the key
set of the latest extraction (`set(new_keys)` of the second call),
whatever the first call extracted — not the union of the two. -/
theorem add_notebook_idempotent_ownership (s : GlueState) (d : String)
    (nk1 nk2 : Dict String Artifact) :
    Dict.dget (add_notebook (add_notebook s d nk1) d nk2).docmap d
      = some (pySet (nk2.map (·.1))) := by
  simp only [add_notebook]
  exact Dict.dget_dinsert_self _ d _

/-- C1 (evaluating the code at the failing input): with two cache records
for the same uri, pk 1 created at time 10 and pk 2 created at time 20,
the selection step of `add_notebook_outputs` picks the record with the
MINIMUM creation timestamp (pk 1), not the most recent one (pk 2) the
claim calls for. -/
theorem lookup_cache_record_selects_minimum_created :
    select_pk [⟨1, "nb.ipynb", 10⟩, ⟨2, "nb.ipynb", 20⟩] = some 1 ∧
    lookup_cache_record "nb.ipynb"
        ⟨[], [⟨1, "nb.ipynb", 10⟩, ⟨2, "nb.ipynb", 20⟩], 3⟩
      = Except.ok (some ⟨1, "nb.ipynb", 10⟩) := by
  constructor <;> rfl

/-- C2 (evaluating the code at the failing input): a build pass that
stages nothing (empty notebook list) leaves `pk_list = None`, so the
single engine call receives `filter_pks = pk_list or None = None` and
executes the PREVIOUSLY staged notebook pk 7 — instead of running
nothing, as the claim requires. -/
theorem empty_pass_runs_previously_staged :
    (stage_and_execute [] false [] ⟨[⟨7, "old.ipynb", none⟩], [], 8⟩).pk_list = none ∧
    (stage_and_execute [] false [] ⟨[⟨7, "old.ipynb", none⟩], [], 8⟩).executed = [7] := by
  constructor <;> rfl

/-- C4: `clear_doc d` removes the docmap entry of `d`, removes from the
cache exactly the keys that entry attributed to `d`, and changes nothing
else: other documents keep their docmap entries, keys not attributed to
`d` keep their cache entries (in particular every key owned by another
document, under the spec invariant that a key is owned by at most one
document at a time), and the whole call is a no-op when `d` is unknown. -/
theorem clear_doc_removes_exactly_owned (s : GlueState) (d : String) :
    (Dict.dget (clear_doc s d).docmap d = none) ∧
    (∀ d', d' ≠ d → Dict.dget (clear_doc s d).docmap d' = Dict.dget s.docmap d') ∧
    (∀ k, k ∈ ownedKeys s d → Dict.dget (clear_doc s d).cache k = none) ∧
    (∀ k, k ∉ ownedKeys s d → Dict.dget (clear_doc s d).cache k = Dict.dget s.cache k) ∧
    (∀ d' ks k, d' ≠ d → Dict.dget s.docmap d' = some ks → k ∈ ks →
      k ∉ ownedKeys s d →
      Dict.dget (clear_doc s d).cache k = Dict.dget s.cache k) ∧
    (Dict.dget s.docmap d = none → clear_doc s d = s) := by
  refine ⟨?_, ?_, ?_, ?_, ?_, ?_⟩
  · exact Dict.dget_derase_self s.docmap d
  · exact fun d' hd' => Dict.dget_derase_ne s.docmap d d' hd'
  · intro k hk
    show Dict.dget (Dict.eraseList s.cache (ownedKeys s d)) k = none
    rw [Dict.dget_eraseList, if_pos hk]
  · intro k hk
    show Dict.dget (Dict.eraseList s.cache (ownedKeys s d)) k = Dict.dget s.cache k
    rw [Dict.dget_eraseList, if_neg hk]
  · intro d' ks k _ _ _ hk
    show Dict.dget (Dict.eraseList s.cache (ownedKeys s d)) k = Dict.dget s.cache k
    rw [Dict.dget_eraseList, if_neg hk]
  · intro h
    cases s with
    | mk cache docmap =>
      have howned : ownedKeys ⟨cache, docmap⟩ d = [] := by
        simp [ownedKeys, h]
      simp only [clear_doc, howned, GlueState.mk.injEq]
      exact ⟨rfl, Dict.derase_of_dget_none docmap d h⟩

/-- A concrete store exercising `clear_doc_removes_exactly_owned`. -/
def clearDocStore : GlueState :=
  { cache := [("k1", ⟨[("text/plain", "1")], ""⟩), ("k2", ⟨[("text/plain", "2")], ""⟩)]
    docmap := [("docA", ["k1"]), ("docB", ["k2"])] }

/-- Witness for C4 at a concrete store: clearing `docA` removes `k1` from
the cache, keeps `docB`'s key `k2`, and clearing the unknown `docC` is a
no-op. -/
theorem clear_doc_removes_exactly_owned_witness :
    Dict.dget (clear_doc clearDocStore "docA").cache "k1" = none ∧
    Dict.dget (clear_doc clearDocStore "docA").cache "k2"
      = Dict.dget clearDocStore.cache "k2" ∧
    Dict.dget (clear_doc clearDocStore "docA").docmap "docB"
      = Dict.dget clearDocStore.docmap "docB" ∧
    clear_doc clearDocStore "docC" = clearDocStore :=
  ⟨(clear_doc_removes_exactly_owned clearDocStore "docA").2.2.1 "k1" (by decide),
   (clear_doc_removes_exactly_owned clearDocStore "docA").2.2.2.2.1 "docB" ["k2"] "k2"
     (by decide) (by decide) (by decide) (by decide),
   (clear_doc_removes_exactly_owned clearDocStore "docA").2.1 "docB" (by decide),
   (clear_doc_removes_exactly_owned clearDocStore "docC").2.2.2.2.2 (by decide)⟩

/-- C10: a lookup of a present key with `view=False, replace=True`
returns the prefix-stripped artifact AND writes it back into the store:
the stored entry now holds the stripped artifact (other keys and the
docmap are untouched), a later plain lookup returns the stripped
artifact, and every snapshot entry listing the key lists the stripped
value. -/
theorem glue_get_replace_mutates_in_place (s : GlueState) (key : String) (a : Artifact)
    (h : Dict.dget s.cache key = some a) :
    glue_get s key false true =
      Except.ok (some (stripArtifact a),
        { s with cache := Dict.dinsert s.cache key (stripArtifact a) }) ∧
    Dict.dget (Dict.dinsert s.cache key (stripArtifact a)) key
      = some (stripArtifact a) ∧
    (∀ k', k' ≠ key →
      Dict.dget (Dict.dinsert s.cache key (stripArtifact a)) k'
        = Dict.dget s.cache k') ∧
    ({ s with cache := Dict.dinsert s.cache key (stripArtifact a) } : GlueState).docmap
      = s.docmap ∧
    glue_get { s with cache := Dict.dinsert s.cache key (stripArtifact a) } key true false
      = Except.ok (some (stripArtifact a),
          { s with cache := Dict.dinsert s.cache key (stripArtifact a) }) ∧
    (∀ q, q ∈ snapshot { s with cache := Dict.dinsert s.cache key (stripArtifact a) } →
      ∀ v, (key, v) ∈ q.2 → v = stripArtifact a) := by
  refine ⟨?_, Dict.dget_dinsert_self _ _ _, ?_, rfl, ?_, ?_⟩
  · simp [glue_get, h]
  · exact fun k' hk' => Dict.dget_dinsert_ne s.cache key k' (stripArtifact a) hk'
  · simp [glue_get, Dict.dget_dinsert_self]
  · intro q hq v hv
    simp only [snapshot, List.mem_map] at hq
    obtain ⟨p, _, rfl⟩ := hq
    simp only [List.mem_filterMap] at hv
    obtain ⟨k0, _, hmap⟩ := hv
    cases hd : Dict.dget (Dict.dinsert s.cache key (stripArtifact a)) k0 with
    | none => rw [hd] at hmap; simp at hmap
    | some w =>
      rw [hd] at hmap
      simp only [Option.map_some', Option.some.injEq, Prod.mk.injEq] at hmap
      obtain ⟨hk, hw⟩ := hmap
      subst hk
      rw [Dict.dget_dinsert_self] at hd
      rw [← hw]
      exact (Option.some.injEq _ _ ▸ hd).symm ▸ rfl

/-- A concrete store whose artifact carries a reserved-prefix mime key. -/
def mutStore : GlueState :=
  { cache := [("x", ⟨[("application/papermill.record/text/plain", "42")], "m"⟩)]
    docmap := [("docA", ["x"])] }

/-- Witness for C10 at a concrete store: the lookup strips the reserved
mime key and the stripped artifact is what the store now holds. -/
theorem glue_get_replace_mutates_in_place_witness :
    glue_get mutStore "x" false true =
      Except.ok (some (stripArtifact ⟨[("application/papermill.record/text/plain", "42")], "m"⟩),
        { mutStore with
          cache := Dict.dinsert mutStore.cache "x"
            (stripArtifact ⟨[("application/papermill.record/text/plain", "42")], "m"⟩) }) ∧
    stripArtifact ⟨[("application/papermill.record/text/plain", "42")], "m"⟩
      = ⟨[("text/plain", "42")], "m"⟩ :=
  ⟨(glue_get_replace_mutates_in_place mutStore "x"
      ⟨[("application/papermill.record/text/plain", "42")], "m"⟩ (by decide)).1,
   by decide⟩

/-- A small mimebundle artifact holding "1". -/
def artOne : Artifact := ⟨[("text/plain", "1")], ""⟩

/-- A small mimebundle artifact holding "2". -/
def artTwo : Artifact := ⟨[("text/plain", "2")], ""⟩

/-- The store reached by gluing key "x" from docA, re-gluing "x" from
docB (the last-writer-wins key collision the spec describes), then
clearing docB: docA's docmap entry still lists "x" but clearing docB
popped "x" from the cache. -/
def collidedStore : GlueState :=
  clear_doc
    (add_notebook (add_notebook ⟨[], []⟩ "docA" [("x", artOne)]) "docB" [("x", artTwo)])
    "docB"

/-- C7 counterexample: on `collidedStore` the object `write_cache`
serializes maps docA to an EMPTY key set — the claim that the snapshot
contains no document with an empty key set fails on this store state. -/
theorem snapshot_contains_empty_key_set :
    snapshot collidedStore = [("docA", [])] := by decide

/-- C7 amended: provided every key the docmap attributes to some document
is present in the cache, the snapshot contains no document with an empty
key set; and, for every store state whatsoever, every key a snapshot
entry lists is mapped to exactly the artifact a lookup without prefix
stripping currently returns. -/
theorem snapshot_no_empty_doc_and_current_values (s : GlueState) :
    ((∀ p, p ∈ s.docmap → ∀ k, k ∈ p.2 → (Dict.dget s.cache k).isSome = true) →
      ∀ q, q ∈ snapshot s → q.2 ≠ []) ∧
    (∀ q, q ∈ snapshot s → ∀ k v, (k, v) ∈ q.2 →
      glue_get s k true false = Except.ok (some v, s)) := by
  constructor
  · intro hwf q hq
    simp only [snapshot, List.mem_map] at hq
    obtain ⟨p, hp, rfl⟩ := hq
    rw [List.mem_filter] at hp
    obtain ⟨hpmem, hpne⟩ := hp
    have hne : p.2 ≠ [] := by
      intro hnil; rw [hnil] at hpne; simp at hpne
    obtain ⟨k0, hk0⟩ := List.exists_mem_of_ne_nil p.2 hne
    have hsome := hwf p hpmem k0 hk0
    cases hd : Dict.dget s.cache k0 with
    | none => rw [hd] at hsome; simp at hsome
    | some w =>
      have hmem : (k0, w) ∈ p.2.filterMap
          (fun k => (Dict.dget s.cache k).map (fun v => (k, v))) := by
        rw [List.mem_filterMap]
        exact ⟨k0, hk0, by rw [hd]; rfl⟩
      exact List.ne_nil_of_mem hmem
  · intro q hq k v hv
    simp only [snapshot, List.mem_map] at hq
    obtain ⟨p, _, rfl⟩ := hq
    simp only [List.mem_filterMap] at hv
    obtain ⟨k0, _, hmap⟩ := hv
    cases hd : Dict.dget s.cache k0 with
    | none => rw [hd] at hmap; simp at hmap
    | some w =>
      rw [hd] at hmap
      simp only [Option.map_some', Option.some.injEq, Prod.mk.injEq] at hmap
      obtain ⟨hk, hw⟩ := hmap
      subst hk
      simp [glue_get, hd, hw]

/-- A store satisfying the amended well-formedness side condition. -/
def wfStore : GlueState :=
  { cache := [("x", artOne)], docmap := [("docA", ["x"])] }

/-- Witness for the amended C7 at a concrete store: the snapshot entry of
docA is nonempty and its listed key "x" carries the artifact the current
lookup returns. -/
theorem snapshot_no_empty_doc_and_current_values_witness :
    glue_get wfStore "x" true false = Except.ok (some artOne, wfStore) ∧
    ("docA", [("x", artOne)]).2 ≠ ([] : List (String × Artifact)) :=
  ⟨(snapshot_no_empty_doc_and_current_values wfStore).2
      ("docA", [("x", artOne)]) (by decide) "x" artOne (by decide),
   (snapshot_no_empty_doc_and_current_values wfStore).1 (by decide)
      ("docA", [("x", artOne)]) (by decide)⟩

/-- C6: with caching configured, a path with no matching cache record and
no staged record (or a staged record without traceback) makes
`add_notebook_outputs` return the parsed notebook unmodified, write no
report file, and surface no exception: the `KeyError` signalling each
missing record is caught inside the function and the result is a normal
`ok`. -/
theorem no_record_returns_notebook_unmodified (cwd : String) (db : CacheState)
    (mfn : Notebook → Notebook) (file_path : String) (ntbk : Notebook) (dest : String)
    (hrec : records_from_uri file_path db = [])
    (hstg : ∀ sr, get_staged_record (relative_file_path cwd file_path) db = Except.ok sr →
      sr.traceback.getD "" = "") :
    add_notebook_outputs cwd db mfn file_path ntbk true dest =
      Except.ok { ntbk := ntbk, reports := [], infos := [], errors := [] } := by
  have hlook : lookup_cache_record file_path db = Except.ok none := by
    simp [lookup_cache_record, hrec]
  simp only [add_notebook_outputs, hlook, if_true]
  cases hs : get_staged_record (relative_file_path cwd file_path) db with
  | ok sr => simp [hstg sr hs]
  | error e => simp

/-- Witness for C6 on an empty database: nothing cached, nothing staged,
and the notebook comes back unmodified with no error escaping. -/
theorem no_record_returns_notebook_unmodified_witness :
    add_notebook_outputs "x" ⟨[], [], 0⟩ id "docs/nb1.ipynb" ⟨[]⟩ true "out" =
      Except.ok { ntbk := ⟨[]⟩, reports := [], infos := [], errors := [] } :=
  no_record_returns_notebook_unmodified "x" ⟨[], [], 0⟩ id "docs/nb1.ipynb" ⟨[]⟩ "out"
    rfl (fun sr h => by simp [get_staged_record] at h)

/-- Filtering for a uri after filtering it away yields nothing. -/
theorem filter_eq_of_filter_ne (l : List CacheRecordE) (p : String) :
    (l.filter (fun r => r.uri ≠ p)).filter (fun r => r.uri = p) = [] := by
  induction l with
  | nil => rfl
  | cons a t ih =>
    by_cases ha : a.uri = p <;> simp [List.filter_cons, ha, ih]

/-- Filtering for `p` commutes past removing the records of a different
uri `q`. -/
theorem filter_uri_filter_ne (l : List CacheRecordE) (p q : String) (hpq : p ≠ q) :
    (l.filter (fun r => r.uri ≠ q)).filter (fun r => r.uri = p)
      = l.filter (fun r => r.uri = p) := by
  induction l with
  | nil => rfl
  | cons a t ih =>
    by_cases ha : a.uri = q
    · have hap : ¬ a.uri = p := fun hh => hpq (hh.symm.trans ha)
      rw [List.filter_cons_of_neg (by simp [ha]),
        List.filter_cons_of_neg (by simp [hap]), ih]
    · rw [List.filter_cons_of_pos (by simp [ha])]
      by_cases hap : a.uri = p
      · rw [List.filter_cons_of_pos (by simp [hap]),
          List.filter_cons_of_pos (by simp [hap]), ih]
      · rw [List.filter_cons_of_neg (by simp [hap]),
          List.filter_cons_of_neg (by simp [hap]), ih]

/-- A loop step on a document whose path differs from `p` never touches
the cache records of `p`. -/
theorem process_doc_records_other (excl : List String) (do_run : Bool) (p : String)
    (acc : Option (List Nat) × CacheState) (e : DocInput) (hne : e.source_path ≠ p) :
    (process_doc excl do_run acc e).2.records.filter (fun r => r.uri = p)
      = acc.2.records.filter (fun r => r.uri = p) := by
  unfold process_doc
  by_cases hex : excludedDoc excl e.name
  · simp [hex]
  · simp only [hex, Bool.false_eq_true, if_false]
    by_cases hrun : (do_run || !has_outputs_of e.ntbk) = true
    · simp [hrun, stage_notebook_file]
    · simp only [hrun, if_false]
      by_cases hout : has_outputs_of e.ntbk
      · simp only [hout, if_true]
        show ((cache_notebook_file acc.2 e.source_path true).records.filter
            (fun r : CacheRecordE => r.uri = p)) = _
        simp only [cache_notebook_file, if_true, List.filter_append]
        rw [filter_uri_filter_ne _ _ _ (fun hh => hne hh.symm)]
        simp [hne]
      · simp [hout]

/-- A loop step on a document whose path differs from `p` never touches
the staged records of `p` other than by staging its own path. -/
theorem process_doc_staged_keep (excl : List String) (p : String)
    (acc : Option (List Nat) × CacheState) (e : DocInput)
    (he : e.source_path = p → excludedDoc excl e.name = false ∧
      has_outputs_of e.ntbk = true) :
    (process_doc excl false acc e).2.staged.filter (fun r => r.uri = p)
      = acc.2.staged.filter (fun r => r.uri = p) := by
  unfold process_doc
  by_cases hex : excludedDoc excl e.name
  · simp [hex]
  · simp only [hex, Bool.false_eq_true, if_false]
    by_cases hout : has_outputs_of e.ntbk
    · simp only [hout, Bool.not_true, Bool.false_or, Bool.false_eq_true, if_false, if_true]
      rfl
    · have hne : e.source_path ≠ p := by
        intro hh
        exact hout (he hh).2
      simp only [hout, Bool.not_false, Bool.false_or, if_true]
      show ((acc.2.staged ++ [_]).filter (fun r : StagedRecordE => r.uri = p)) = _
      simp [List.filter_append, stage_notebook_file, hne]

/-- A loop step on a non-excluded document with outputs and no forced
run takes exactly the directly-cache branch, and the cache afterwards
holds exactly one record for the document identity: the fresh one. -/
theorem process_doc_cached_step (excl : List String)
    (acc : Option (List Nat) × CacheState) (e : DocInput)
    (hex : excludedDoc excl e.name = false) (hout : has_outputs_of e.ntbk = true) :
    process_doc excl false acc e = (acc.1, cache_notebook_file acc.2 e.source_path true) ∧
    ((cache_notebook_file acc.2 e.source_path true).records.filter
        (fun r => r.uri = e.source_path))
      = [⟨acc.2.nextPk, e.source_path, acc.2.nextPk⟩] := by
  constructor
  · simp [process_doc, hex, hout]
  · simp only [cache_notebook_file, if_true, List.filter_append, filter_eq_of_filter_ne]
    simp

/-- The staging loop preserves the staged records of `p` whenever every
listed document with path `p` is non-excluded, un-forced and carries
outputs. -/
theorem stage_loop_staged_keep (excl : List String) (p : String) (docs : List DocInput)
    (hp : ∀ e ∈ docs, e.source_path = p → excludedDoc excl e.name = false ∧
      has_outputs_of e.ntbk = true) :
    ∀ acc : Option (List Nat) × CacheState,
      (docs.foldl (process_doc excl false) acc).2.staged.filter (fun r => r.uri = p)
        = acc.2.staged.filter (fun r => r.uri = p) := by
  induction docs with
  | nil => intro acc; rfl
  | cons e rest ih =>
    intro acc
    have hrest : ∀ x ∈ rest, x.source_path = p → excludedDoc excl x.name = false ∧
        has_outputs_of x.ntbk = true :=
      fun x hx => hp x (List.mem_cons_of_mem e hx)
    show (rest.foldl (process_doc excl false) (process_doc excl false acc e)).2.staged.filter
        (fun r => r.uri = p) = _
    rw [ih hrest]
    exact process_doc_staged_keep excl p acc e (hp e (List.mem_cons_self e rest))

/-- Once the records of `p` are down to a single one, the rest of the
loop keeps them that way (a further document with path `p` re-caches and
overwrites; any other document leaves them alone). -/
theorem stage_loop_records_keep (excl : List String) (p : String) (docs : List DocInput)
    (hp : ∀ e ∈ docs, e.source_path = p → excludedDoc excl e.name = false ∧
      has_outputs_of e.ntbk = true) :
    ∀ acc : Option (List Nat) × CacheState,
      (acc.2.records.filter (fun r => r.uri = p)).length = 1 →
      ((docs.foldl (process_doc excl false) acc).2.records.filter
          (fun r => r.uri = p)).length = 1 := by
  induction docs with
  | nil => intro acc h; exact h
  | cons e rest ih =>
    intro acc h
    have hrest : ∀ x ∈ rest, x.source_path = p → excludedDoc excl x.name = false ∧
        has_outputs_of x.ntbk = true :=
      fun x hx => hp x (List.mem_cons_of_mem e hx)
    show ((rest.foldl (process_doc excl false) (process_doc excl false acc e)).2.records.filter
        (fun r => r.uri = p)).length = 1
    by_cases hsp : e.source_path = p
    · obtain ⟨hex, hout⟩ := hp e (List.mem_cons_self e rest) hsp
      obtain ⟨hstep, hone⟩ := process_doc_cached_step excl acc e hex hout
      refine ih hrest _ ?_
      rw [hstep]
      show ((cache_notebook_file acc.2 e.source_path true).records.filter
          (fun r => r.uri = p)).length = 1
      rw [hsp] at hone ⊢
      rw [hone]
      rfl
    · refine ih hrest _ ?_
      rw [process_doc_records_other excl false p acc e hsp]
      exact h

/-- If some listed document has path `p` and every listed document with
path `p` is non-excluded, un-forced and carries outputs, the loop ends
with exactly one cache record for `p`. -/
theorem stage_loop_records_one (excl : List String) (p : String) (docs : List DocInput)
    (hp : ∀ e ∈ docs, e.source_path = p → excludedDoc excl e.name = false ∧
      has_outputs_of e.ntbk = true)
    (hmem : ∃ d, d ∈ docs ∧ d.source_path = p) :
    ∀ acc : Option (List Nat) × CacheState,
      ((docs.foldl (process_doc excl false) acc).2.records.filter
          (fun r => r.uri = p)).length = 1 := by
  induction docs with
  | nil =>
    obtain ⟨d, hd, _⟩ := hmem
    exact absurd hd (List.not_mem_nil d)
  | cons e rest ih =>
    intro acc
    have hrest : ∀ x ∈ rest, x.source_path = p → excludedDoc excl x.name = false ∧
        has_outputs_of x.ntbk = true :=
      fun x hx => hp x (List.mem_cons_of_mem e hx)
    show ((rest.foldl (process_doc excl false) (process_doc excl false acc e)).2.records.filter
        (fun r => r.uri = p)).length = 1
    by_cases hsp : e.source_path = p
    · obtain ⟨hex, hout⟩ := hp e (List.mem_cons_self e rest) hsp
      obtain ⟨hstep, hone⟩ := process_doc_cached_step excl acc e hex hout
      refine stage_loop_records_keep excl p rest hrest _ ?_
      rw [hstep]
      show ((cache_notebook_file acc.2 e.source_path true).records.filter
          (fun r => r.uri = p)).length = 1
      rw [hsp] at hone ⊢
      rw [hone]
      rfl
    · obtain ⟨d, hd, hdp⟩ := hmem
      have hdr : d ∈ rest := by
        cases List.mem_cons.mp hd with
        | inl hde => exact absurd (hde ▸ hdp) hsp
        | inr hh => exact hh
      exact ih hrest ⟨d, hdr, hdp⟩ _

/-- C3: a non-excluded document whose code cells all carry outputs, with
no forced rerun, is never staged and is recorded directly as cached with
`overwrite=True`: its own loop step takes exactly the direct-cache
branch, the pass as a whole adds no staged record for its path, and the
pass ends with exactly one cache record for its identity. -/
theorem hasoutputs_doc_directly_cached_never_staged (excl : List String)
    (docs : List DocInput) (st : CacheState) (d : DocInput)
    (hmem : d ∈ docs)
    (hp : ∀ e ∈ docs, e.source_path = d.source_path →
      excludedDoc excl e.name = false ∧ has_outputs_of e.ntbk = true) :
    (∀ acc : Option (List Nat) × CacheState,
      process_doc excl false acc d = (acc.1, cache_notebook_file acc.2 d.source_path true)) ∧
    (stage_and_execute excl false docs st).state.staged.filter
        (fun r => r.uri = d.source_path)
      = st.staged.filter (fun r => r.uri = d.source_path) ∧
    ((stage_and_execute excl false docs st).state.records.filter
        (fun r => r.uri = d.source_path)).length = 1 := by
  obtain ⟨hex, hout⟩ := hp d hmem rfl
  refine ⟨?_, ?_, ?_⟩
  · intro acc
    exact (process_doc_cached_step excl acc d hex hout).1
  · exact stage_loop_staged_keep excl d.source_path docs hp (none, st)
  · exact stage_loop_records_one excl d.source_path docs hp ⟨d, hmem, rfl⟩ (none, st)

/-- A concrete document whose single code cell already has an output. -/
def docWithOutputs : DocInput :=
  { name := "doc1", source_path := "src/doc1.ipynb"
    ntbk := ⟨[⟨"code", ["out"]⟩, ⟨"markdown", []⟩]⟩ }

/-- Witness for C3: running a pass over just `docWithOutputs` (exclusion
patterns that do not match it, no forced rerun) stages nothing for it and
leaves exactly one cache record for its path. -/
theorem hasoutputs_doc_directly_cached_never_staged_witness :
    (stage_and_execute ["skip"] false [docWithOutputs] ⟨[], [], 0⟩).state.staged.filter
        (fun r => r.uri = docWithOutputs.source_path)
      = (⟨[], [], 0⟩ : CacheState).staged.filter
          (fun r => r.uri = docWithOutputs.source_path) ∧
    ((stage_and_execute ["skip"] false [docWithOutputs] ⟨[], [], 0⟩).state.records.filter
        (fun r => r.uri = docWithOutputs.source_path)).length = 1 :=
  ⟨(hasoutputs_doc_directly_cached_never_staged ["skip"] [docWithOutputs] ⟨[], [], 0⟩
      docWithOutputs (by decide) (by decide)).2.1,
   (hasoutputs_doc_directly_cached_never_staged ["skip"] [docWithOutputs] ⟨[], [], 0⟩
      docWithOutputs (by decide) (by decide)).2.2⟩

/-- `lastIdx` over an append when the right part contains the character. -/
theorem lastIdx_append_of_some (A B : List Char) (c : Char) (i : Nat)
    (h : lastIdx B c = some i) : lastIdx (A ++ B) c = some (A.length + i) := by
  induction A with
  | nil => simpa using h
  | cons a t ih =>
    show (match lastIdx (t ++ B) c with
          | some j => some (j + 1)
          | none => if a = c then some 0 else none) = some ((a :: t).length + i)
    rw [ih]
    simp only [Option.some.injEq, List.length_cons]
    omega

/-- `lastIdx` over an append when the right part lacks the character. -/
theorem lastIdx_append_of_none (A B : List Char) (c : Char)
    (h : lastIdx B c = none) : lastIdx (A ++ B) c = lastIdx A c := by
  induction A with
  | nil => simpa using h
  | cons a t ih =>
    show (match lastIdx (t ++ B) c with
          | some j => some (j + 1)
          | none => if a = c then some 0 else none)
        = (match lastIdx t c with
           | some j => some (j + 1)
           | none => if a = c then some 0 else none)
    rw [ih]

/-- A character that never occurs has no last index. -/
theorem lastIdx_of_not_mem (l : List Char) (c : Char) (h : c ∉ l) :
    lastIdx l c = none := by
  induction l with
  | nil => rfl
  | cons a t ih =>
    rw [List.mem_cons] at h
    push_neg at h
    show (match lastIdx t c with
          | some j => some (j + 1)
          | none => if a = c then some 0 else none) = none
    rw [ih h.2, if_neg (fun hh => h.1 hh.symm)]

/-- A Python slice with in-range `Nat` endpoints is a drop-then-take. -/
theorem pySliceL_nat (l : List Char) (a b : Nat) (ha : a ≤ l.length) (hb : b ≤ l.length) :
    pySliceL l (a : Int) (b : Int) = (l.drop a).take (b - a) := by
  unfold pySliceL
  have h1 : ¬ ((a : Int) < 0) := by omega
  have h2 : ¬ ((b : Int) < 0) := by omega
  have hmin1 : min (a : Int) (l.length : Int) = (a : Int) :=
    min_eq_left (by exact_mod_cast ha)
  have hmin2 : min (b : Int) (l.length : Int) = (b : Int) :=
    min_eq_left (by exact_mod_cast hb)
  simp only [h1, h2, if_false, hmin1, hmin2, Int.toNat_natCast]

/-- The file-name slice of `add_notebook_outputs` really is the document
base name: on a path of the shape `dir/stem.ext` (no slash after the last
slash but the separators, no dot in the stem or extension) it yields the
stem. -/
theorem log_file_name_of_shape (r : String) (A stem ext : List Char)
    (hform : r.toList = A ++ '/' :: (stem ++ '.' :: ext))
    (h1 : '/' ∉ stem) (h3 : '/' ∉ ext) (h4 : '.' ∉ ext) :
    log_file_name r = stem.asString := by
  have hslashD : '/' ∉ stem ++ '.' :: ext := by
    rw [List.mem_append, List.mem_cons]
    push_neg
    exact ⟨h1, by decide, h3⟩
  have hB : lastIdx ('/' :: (stem ++ '.' :: ext)) '/' = some 0 := by
    show (match lastIdx (stem ++ '.' :: ext) '/' with
          | some j => some (j + 1)
          | none => if '/' = '/' then some 0 else none) = some 0
    rw [lastIdx_of_not_mem _ _ hslashD, if_pos rfl]
  have hslash : lastIdx r.toList '/' = some A.length := by
    rw [hform]
    have := lastIdx_append_of_some A _ '/' 0 hB
    simpa using this
  have hdotExt : lastIdx ('.' :: ext) '.' = some 0 := by
    show (match lastIdx ext '.' with
          | some j => some (j + 1)
          | none => if '.' = '.' then some 0 else none) = some 0
    rw [lastIdx_of_not_mem _ _ h4, if_pos rfl]
  have hdotStem : lastIdx (stem ++ '.' :: ext) '.' = some stem.length := by
    have := lastIdx_append_of_some stem _ '.' 0 hdotExt
    simpa using this
  have hdotB : lastIdx ('/' :: (stem ++ '.' :: ext)) '.' = some (stem.length + 1) := by
    show (match lastIdx (stem ++ '.' :: ext) '.' with
          | some j => some (j + 1)
          | none => if '/' = '.' then some 0 else none) = some (stem.length + 1)
    rw [hdotStem]
  have hdot : lastIdx r.toList '.' = some (A.length + (stem.length + 1)) := by
    rw [hform]
    exact lastIdx_append_of_some A _ '.' (stem.length + 1) hdotB
  have hlen : r.toList.length = A.length + 1 + (stem.length + 1 + ext.length) := by
    rw [hform]
    simp [List.length_append]
    omega
  have hrf1 : pyRfind r '/' = (A.length : Int) := by
    unfold pyRfind; rw [hslash]
  have hrf2 : pyRfind r '.' = ((A.length + stem.length + 1 : Nat) : Int) := by
    unfold pyRfind; rw [hdot]; push_cast; ring
  unfold log_file_name
  rw [hrf1, hrf2]
  have hcast1 : ((A.length : Int) + 1) = ((A.length + 1 : Nat) : Int) := by
    push_cast; ring
  rw [hcast1]
  rw [pySliceL_nat r.toList (A.length + 1) (A.length + stem.length + 1)
    (by omega) (by omega)]
  have hdrop : r.toList.drop (A.length + 1) = stem ++ '.' :: ext := by
    rw [hform, List.append_cons A '/' (stem ++ '.' :: ext)]
    exact List.drop_left' (by simp)
  rw [hdrop]
  have htake : (stem ++ '.' :: ext).take (A.length + stem.length + 1 - (A.length + 1))
      = stem := by
    have : A.length + stem.length + 1 - (A.length + 1) = stem.length := by omega
    rw [this]
    exact List.take_left' rfl
  rw [htake]

/-- C9: with caching configured, a document with no matching cache record
whose staged record carries a non-empty traceback makes
`add_notebook_outputs` write exactly one report file — the traceback
text, at `<destination>/reports/<document-basename>.log` — and emit one
informational message naming that file. -/
theorem traceback_written_to_reports_log (cwd : String) (db : CacheState)
    (mfn : Notebook → Notebook) (file_path : String) (ntbk : Notebook) (dest : String)
    (sr : StagedRecordE) (t : String) (A stem ext : List Char)
    (hrec : records_from_uri file_path db = [])
    (hstg : get_staged_record (relative_file_path cwd file_path) db = Except.ok sr)
    (htb : sr.traceback = some t) (hne : t ≠ "")
    (hform : (relative_file_path cwd file_path).toList = A ++ '/' :: (stem ++ '.' :: ext))
    (h1 : '/' ∉ stem) (h3 : '/' ∉ ext) (h4 : '.' ∉ ext) :
    add_notebook_outputs cwd db mfn file_path ntbk true dest =
      Except.ok { ntbk := ntbk,
                  reports := [(dest ++ "/reports/" ++ stem.asString ++ ".log", t)],
                  infos := ["Execution traceback for " ++ stem.asString ++
                            " is saved in " ++
                            (dest ++ "/reports/" ++ stem.asString ++ ".log")],
                  errors := [] } := by
  have hlook : lookup_cache_record file_path db = Except.ok none := by
    simp [lookup_cache_record, hrec]
  have hname : log_file_name (relative_file_path cwd file_path) = stem.asString :=
    log_file_name_of_shape _ A stem ext hform h1 h3 h4
  have hpath : (dest ++ "/reports") ++ "/" ++ stem.asString ++ ".log"
      = dest ++ "/reports/" ++ stem.asString ++ ".log" := by
    apply String.ext
    simp only [String.data_append]
    simp [List.append_assoc]
  simp only [add_notebook_outputs, hlook, if_true, hstg, hname, htb]
  rw [if_pos (by simpa using hne)]
  rw [hpath]
  simp [htb]

/-- Witness for C9 at fully concrete inputs: the staged traceback of
`docs/nb1.ipynb` lands in `out/reports/nb1.log` and the log message
names that file. -/
theorem traceback_written_to_reports_log_witness :
    add_notebook_outputs "x" ⟨[⟨7, "docs/nb1.ipynb", some "boom"⟩], [], 8⟩ id
        "docs/nb1.ipynb" ⟨[]⟩ true "out" =
      Except.ok { ntbk := ⟨[]⟩,
                  reports := [("out/reports/nb1.log", "boom")],
                  infos := ["Execution traceback for nb1 is saved in out/reports/nb1.log"],
                  errors := [] } := by
  have h := traceback_written_to_reports_log "x"
    ⟨[⟨7, "docs/nb1.ipynb", some "boom"⟩], [], 8⟩ id "docs/nb1.ipynb" ⟨[]⟩ "out"
    ⟨7, "docs/nb1.ipynb", some "boom"⟩ "boom"
    "docs".toList "nb1".toList "ipynb".toList
    rfl rfl rfl (by decide) (by decide) (by decide) (by decide) (by decide)
  simpa using h

end SphinxNb
